import Mathlib

/-!
# Screen rendering of the prompt: `render.go`

A shallow embedding of the rendering engine of `render.go`: the coordinate
mapper `toPos`, the cursor motion helpers (`move`, `backward`,
`moveForRender`), the frame renderer `Render` and the line commit handler
`BreakLine`, followed by the properties proved about them.

Conventions of the embedding.

* A Go `string` is the list of its bytes; a byte is written as a `Char`, so an
  ASCII literal such as `"ab\ncd".toList` is the Go string `"ab\ncd"`.
  `len(s)` is the length of the list.
* Go `int` values are `Int`; the `uint16` fields `row`, `col` and `max` are
  `Nat` and are converted like `int(r.col)`.  All quantities are bounded by
  string lengths and terminal sizes, far below `2^63`.
* An operation that can panic in Go (an index or slice expression out of
  range, an integer division by zero) returns `Option`, with `none` for the
  panic.
* The field `out` of the renderer is an interface value, not state of the
  renderer: a method returns the list of the calls it makes on `r.out`, in
  order, and a method that assigns a field of the renderer returns the
  renderer too.  `Flush` is taken to return no error.
-/

namespace Prompt

/-- A Go string, as the list of its bytes. -/
abbrev GoString := List Char

/-- The local type `Block` of `toPos`: the first and last offset of one screen
row of the text. -/
structure Block where
  start : Int
  end_ : Int
  deriving DecidableEq, Repr

/-- The standard library call `strings.Split(text, "\n")`: the pieces of `text`
between newline bytes; a text without newline gives the one piece `text`, and
the empty text gives one empty piece. -/
def splitLines : GoString → List GoString
  | [] => [[]]
  | c :: cs =>
    if c = '\n' then [] :: splitLines cs
    else
      match splitLines cs with
      | [] => [[c]]
      | l :: ls => (c :: l) :: ls

/-- One iteration of the first loop of `toPos` (`for idx, line := range ...`),
for the line `line` of index `idx`, with `lineBlocks` the blocks built so far.
The lookup `lineBlocks[idx-1]` is the only expression that can panic. -/
def blockStep (cols : Int) (lineBlocks : List Block) (idx : Nat) (line : GoString) :
    Option (List Block) :=
  -- `line := fmt.Sprintf("%s\n", line)`
  let lenLine : Int := (line.length : Int) + 1
  let first : Option Block :=
    if idx = 0 then
      some { start := 0, end_ := lenLine - 1 }
    else
      lineBlocks[idx - 1]?.map fun prev =>
        { start := prev.end_ + 1, end_ := prev.end_ + 1 + (lenLine - 1) }
  first.map fun thisBlock =>
    -- the `for { ...; break }` body runs once
    let newBlocks : List Block :=
      if thisBlock.end_ - thisBlock.start > cols then
        [{ start := thisBlock.start, end_ := thisBlock.start + cols - 1 },
         { start := thisBlock.start + cols, end_ := thisBlock.end_ }]
      else
        [thisBlock]
    lineBlocks ++ newBlocks

/-- The first loop of `toPos`, from line index `idx` on. -/
def buildBlocks (cols : Int) : List GoString → Nat → List Block → Option (List Block)
  | [], _, lineBlocks => some lineBlocks
  | line :: rest, idx, lineBlocks =>
    match blockStep cols lineBlocks idx line with
    | none => none
    | some lineBlocks' => buildBlocks cols rest (idx + 1) lineBlocks'

/-- The list `lineBlocks` that `toPos` has built when its first loop ends. -/
def lineBlocksOf (col : Nat) (text : GoString) : Option (List Block) :=
  buildBlocks (col : Int) (splitLines text) 0 []

/-- The second loop of `toPos` (`for idx, block := range lineBlocks`), from
block index `idx` on, with `(x, y)` the values assigned so far. -/
def scanBlocks (cursor : Int) : List Block → Nat → Int × Int → Int × Int
  | [], _, xy => xy
  | block :: rest, idx, xy =>
    if cursor > block.start ∧ cursor < block.end_ then
      scanBlocks cursor rest (idx + 1) (cursor - block.start, (idx : Int))
    else
      scanBlocks cursor rest (idx + 1) xy

/-- The method `Render.toPos` for a renderer of width `col`: the pair `(x, y)`,
column first. -/
def toPos (col : Nat) (cursor : Int) (text : GoString) : Option (Int × Int) :=
  (lineBlocksOf col text).map fun lineBlocks => scanBlocks cursor lineBlocks 0 (0, 0)

/-- One block for each line, the first at offset `s` and each next one right
after the newline of the one before: what the first loop of `toPos` builds
when no line is longer than the width (`buildBlocks_noWrap`). -/
def lineSpans (s : Int) : List GoString → List Block
  | [] => []
  | line :: rest =>
    { start := s, end_ := s + line.length } :: lineSpans (s + line.length + 1) rest

/-- The blocks `lineSpans` of the lines of `text`, read off the text byte by
byte: `cur` is the offset of the first byte of `text` and `start` the offset
at which its first line began (`lineSpans_splitLines`). -/
def textSpans (start cur : Int) : GoString → List Block
  | [] => [{ start := start, end_ := cur }]
  | c :: cs =>
    if c = '\n' then { start := start, end_ := cur } :: textSpans (cur + 1) (cur + 1) cs
    else textSpans start (cur + 1) cs

/-- Reading of "every block after the first has start equal to the previous
block's end + 1". -/
def Contiguous : List Block → Prop
  | [] => True
  | [_] => True
  | a :: b :: rest => b.start = a.end_ + 1 ∧ Contiguous (b :: rest)


/-! ## The collaborators of the renderer

`render.go` uses types, constants and functions that are declared in other
files of the package or in libraries.  Values of such a type are records of
what `render.go` reads from them; functions and constants are fields of
`Env`. -/

/-- The type `Color`, with the values that `render.go` and `render_test.go`
name; every other value is `other n`. -/
inductive Color where
  | DefaultColor
  | DarkRed
  | White
  | Cyan
  | Blue
  | Green
  | Black
  | Turquoise
  | DarkGray
  | other (code : Nat)
  deriving DecidableEq, Repr

/-- The type `DisplayAttribute`, of which `render.go` names `DisplayReverse`. -/
inductive DisplayAttribute where
  | DisplayReverse
  | other (code : Nat)
  deriving DecidableEq, Repr

/-- The calls of the interface `ConsoleWriter` that `render.go` makes on `r.out`. -/
inductive Op where
  | WriteStr (data : GoString)
  | WriteRaw (data : GoString)
  | SetColor (fg bg : Color) (bold : Bool)
  | SetDisplayAttributes (fg bg : Color) (attr : DisplayAttribute)
  | CursorUp (n : Int)
  | CursorDown (n : Int)
  | CursorForward (n : Int)
  | CursorBackward (n : Int)
  | CursorGoTo (row col : Int)
  | EraseLine
  | EraseDown
  | EraseScreen
  | HideCursor
  | ShowCursor
  | ScrollDown
  | ScrollUp
  | SetTitle (title : GoString)
  | ClearTitle
  | Flush
  deriving DecidableEq, Repr

/-- The type `Suggest`. -/
structure Suggest where
  Text : GoString
  Description : GoString
  deriving DecidableEq, Repr

/-- What `render.go` reads of a `*Document`: the fields `Text` and
`cursorPosition` and the results of the methods `TextBeforeCursor()`,
`TextAfterCursor()` and `GetWordBeforeCursorUntilSeparator(sep)`. -/
structure Document where
  Text : GoString
  cursorPosition : Int
  TextBeforeCursor : GoString
  TextAfterCursor : GoString
  GetWordBeforeCursorUntilSeparator : GoString → GoString

/-- What `render.go` reads of a `*Buffer`: the results of the methods `Text()`,
`Document()`, `NewLineCount()` and `DisplayCursorPosition()`. -/
structure Buffer where
  Text : GoString
  Document : Prompt.Document
  NewLineCount : Int
  DisplayCursorPosition : Int

/-- What `render.go` reads of a `*CompletionManager`: the fields `selected`,
`tmp`, `max` (a `uint16`), `verticalScroll` and `wordSeparator`, and the
results of the methods `GetSuggestions()` and `GetSelectedSuggestion()` (the
suggestion when `ok` is true). -/
structure CompletionManager where
  selected : Int
  tmp : List Suggest
  max : Nat
  verticalScroll : Int
  wordSeparator : GoString
  GetSuggestions : List Suggest
  GetSelectedSuggestion : Option Suggest

/-- The functions and constants from outside `render.go`. -/
structure Env where
  /-- The library function `runewidth.StringWidth`. -/
  StringWidth : GoString → Int
  /-- The library function `strings.TrimSpace`. -/
  TrimSpace : GoString → GoString
  /-- The package variable `completionMargin`. -/
  completionMargin : Int
  /-- The package function `formatSuggestions(suggests, max)`. -/
  formatSuggestions : List Suggest → Int → List Suggest × Int
  /-- Whether `runtime.GOOS == "windows"`. -/
  windows : Bool
  /-- The floating point expression
  `int(clamp(float64(windowHeight), 1, float64(windowHeight)*fractionVisible))`
  as a function of `windowHeight` and `contentHeight`. -/
  scrollbarHeight : Int → Int → Int
  /-- The floating point expression `int(float64(windowHeight) * fractionAbove)`
  as a function of `windowHeight`, `verticalScroll` and `contentHeight`. -/
  scrollbarTop : Int → Int → Int → Int

/-- The struct `Render`, without the interface value `out`.
`livePrefixCallback` is a callback without side effects that returns the same
pair on every call; `breakLineCallback` is `nil` (`none`) or a function that
acts on a state of type `σ` of the application. -/
structure Render (σ : Type) where
  prefix_ : GoString
  livePrefixCallback : GoString × Bool
  breakLineCallback : Option (Document → σ → σ)
  title : GoString
  row : Nat
  col : Nat
  previousCursor : Int
  prefixTextColor : Color
  prefixBGColor : Color
  inputTextColor : Color
  inputBGColor : Color
  previewSuggestionTextColor : Color
  previewSuggestionBGColor : Color
  suggestionTextColor : Color
  suggestionBGColor : Color
  selectedSuggestionTextColor : Color
  selectedSuggestionBGColor : Color
  descriptionTextColor : Color
  descriptionBGColor : Color
  selectedDescriptionTextColor : Color
  selectedDescriptionBGColor : Color
  scrollbarThumbColor : Color
  scrollbarBGColor : Color

section Methods

variable {σ : Type}

/-- The library call `strings.Count(text, "\n")`. -/
def countNewlines (text : GoString) : Int :=
  (text.count '\n' : Nat)

/-- The slice expression `xs[lo:hi]`, for a slice whose capacity is its length. -/
def sliceRange {α : Type} (xs : List α) (lo hi : Int) : Option (List α) :=
  if 0 ≤ lo ∧ lo ≤ hi ∧ hi ≤ (xs.length : Int) then
    some ((xs.drop lo.toNat).take (hi - lo).toNat)
  else
    none

/-- The index expression `s[i]` on a string. -/
def byteAt (s : GoString) (i : Int) : Option Char :=
  if 0 ≤ i then s[i.toNat]? else none

/-- The conversion `string(b)` of a byte: the UTF-8 encoding of the code point
`b`, one byte below 128 and two bytes from 128 on. -/
def stringOfByte (b : Char) : GoString :=
  if b.toNat < 128 then [b]
  else [Char.ofNat (192 + b.toNat / 64), Char.ofNat (128 + b.toNat % 64)]

/-- `Render.Setup`. -/
def Setup (r : Render σ) : List Op :=
  if r.title ≠ [] then [.SetTitle r.title, .Flush] else []

/-- `Render.getCurrentPrefix`. -/
def getCurrentPrefix (r : Render σ) : GoString :=
  if r.livePrefixCallback.2 then r.livePrefixCallback.1 else r.prefix_

/-- `Render.renderPrefix`. -/
def renderPrefix (r : Render σ) : List Op :=
  [.SetColor r.prefixTextColor r.prefixBGColor false,
   .WriteStr (getCurrentPrefix r),
   .SetColor .DefaultColor .DefaultColor false]

/-- `Render.TearDown`. -/
def TearDown (_r : Render σ) : List Op :=
  [.ClearTitle, .EraseDown, .Flush]

/-- `Render.prepareArea`. -/
def prepareArea (_r : Render σ) (lines : Int) : List Op :=
  List.replicate lines.toNat Op.ScrollDown ++ List.replicate lines.toNat Op.ScrollUp

/-- `Render.UpdateWinSize`, for a `WinSize` of fields `Row` and `Col`. -/
def UpdateWinSize (r : Render σ) (wsRow wsCol : Nat) : Render σ :=
  { r with row := wsRow, col := wsCol }

/-- `Render.renderWindowTooSmall`. -/
def renderWindowTooSmall (_r : Render σ) : List Op :=
  [.CursorGoTo 0 0, .EraseScreen, .SetColor .DarkRed .White false,
   .WriteStr "Your console window is too small...".toList]

/-- `Render.ClearScreen`. -/
def ClearScreen (_r : Render σ) : List Op :=
  [.EraseScreen, .CursorGoTo 0 0]

/-- `Render.toPos`, as a method of the renderer. -/
def Render.toPos (r : Render σ) (cursor : Int) (text : GoString) : Option (Int × Int) :=
  Prompt.toPos r.col cursor text

/-- `Render.move`: the calls on `r.out` and the result. -/
def move (r : Render σ) (from_ to_ : Int) : Option (List Op × Int) :=
  match r.toPos from_ [], r.toPos to_ [] with
  | some (fromX, fromY), some (toX, toY) =>
    some ([.CursorUp (fromY - toY), .CursorBackward (fromX - toX)], to_)
  | _, _ => none

/-- `Render.backward`. -/
def backward (r : Render σ) (from_ n : Int) : Option (List Op × Int) :=
  move r from_ (from_ - n)

/-- `Render.moveForRender`. -/
def moveForRender (r : Render σ) (from_ to_ : Int) (text : GoString) :
    Option (List Op × Int) :=
  let text := getCurrentPrefix r ++ text
  let lineCount := countNewlines text
  let col : Int := r.col
  match r.toPos (col * lineCount + from_) text, r.toPos to_ text with
  | some (fromX, fromY), some (toX, toY) =>
    some ([.CursorUp (fromY - toY), .CursorBackward (fromX - toX)], to_)
  | _, _ => none

/-- `Render.clear`. -/
def clear (r : Render σ) (cursor : Int) (text : GoString) : Option (List Op) :=
  (moveForRender r cursor 0 text).map fun p => p.1 ++ [.EraseLine, .EraseDown]

/-- `Render.lineWrap`.  The remainder is taken only for `cursor > 0`, where Go's
`%` is the remainder of `Int`; it panics for `r.col == 0`. -/
def lineWrap (env : Env) (r : Render σ) (cursor : Int) : Option (List Op) :=
  if env.windows then some []
  else if ¬ cursor > 0 then some []
  else if r.col = 0 then none
  else if cursor % (r.col : Int) = 0 then some [.WriteRaw ['\n']]
  else some []

/-- The cursor cell and the text after it in `Render.renderMultiline`: the
values of the variables `cursor` and `after` when the `if` statement ends. -/
def cursorCell (env : Env) (buffer : Buffer) : Option (GoString × GoString) :=
  if env.StringWidth buffer.Document.TextAfterCursor = 0 then
    some ([' '], [])
  else
    match byteAt buffer.Text buffer.Document.cursorPosition,
      sliceRange buffer.Document.TextAfterCursor 1 buffer.Document.TextAfterCursor.length with
    | some b, some after =>
      let cursor := stringOfByte b
      let cursor := if cursor = ['\n'] then [' ', '\n'] else cursor
      some (cursor, after)
    | _, _ => none

/-- `Render.renderMultiline`. -/
def renderMultiline (env : Env) (r : Render σ) (buffer : Buffer) : Option (List Op) :=
  let before := buffer.Document.TextBeforeCursor
  (cursorCell env buffer).map fun p =>
    [.SetColor r.inputTextColor r.inputBGColor false,
     .WriteStr before,
     .SetDisplayAttributes r.inputTextColor r.inputBGColor .DisplayReverse,
     .WriteStr p.1,
     .SetColor r.inputTextColor r.inputBGColor false,
     .WriteStr p.2]

/-- One iteration of the loop `for i := 0; i < windowHeight; i++` of
`renderCompletion`, for the row `s = formatted[i]`. -/
def renderCompletionRow (env : Env) (r : Render σ)
    (cursor width selected scrollbarTop scrollbarHeight : Int) (s : Suggest) (i : Nat) :
    Option (List Op) :=
  let ops : List Op :=
    [.CursorDown 1,
     (if (i : Int) = selected then
        .SetColor r.selectedSuggestionTextColor r.selectedSuggestionBGColor true
      else
        .SetColor r.suggestionTextColor r.suggestionBGColor false),
     .WriteStr s.Text,
     (if (i : Int) = selected then
        .SetColor r.selectedDescriptionTextColor r.selectedDescriptionBGColor false
      else
        .SetColor r.descriptionTextColor r.descriptionBGColor false),
     .WriteStr s.Description,
     (if scrollbarTop ≤ (i : Int) ∧ (i : Int) ≤ scrollbarTop + scrollbarHeight then
        .SetColor .DefaultColor r.scrollbarThumbColor false
      else
        .SetColor .DefaultColor r.scrollbarBGColor false),
     .WriteStr [' '],
     .SetColor .DefaultColor .DefaultColor false]
  match lineWrap env r (cursor + width), backward r (cursor + width) width with
  | some wrap, some (back, _) => some (ops ++ wrap ++ back)
  | _, _ => none

/-- The loop `for i := 0; i < windowHeight; i++` of `renderCompletion`, from
row `i` on; `rows` are the elements `formatted[i:]` of the slice `formatted`,
which has `windowHeight` elements. -/
def renderCompletionRows (env : Env) (r : Render σ)
    (cursor width selected scrollbarTop scrollbarHeight : Int) :
    List Suggest → Nat → Option (List Op)
  | [], _ => some []
  | s :: rows, i =>
    match renderCompletionRow env r cursor width selected scrollbarTop scrollbarHeight s i,
      renderCompletionRows env r cursor width selected scrollbarTop scrollbarHeight rows
        (i + 1) with
    | some ops, some rest => some (ops ++ rest)
    | _, _ => none

/-- The value of `windowHeight` in `renderCompletion`. -/
def windowHeightOf (formatted : List Suggest) (completions : CompletionManager) : Int :=
  if (formatted.length : Int) > (completions.max : Int) then (completions.max : Int)
  else (formatted.length : Int)

/-- `Render.renderCompletion`. -/
def renderCompletion (env : Env) (r : Render σ) (buf : Buffer)
    (completions : CompletionManager) : Option (List Op) :=
  let suggestions := completions.GetSuggestions
  if completions.GetSuggestions.length = 0 then some []
  else
    let pfx := getCurrentPrefix r
    let fw := env.formatSuggestions suggestions ((r.col : Int) - env.StringWidth pfx - 1)
    let width := fw.2 + 1
    let windowHeight := windowHeightOf fw.1 completions
    match sliceRange fw.1 completions.verticalScroll
      (completions.verticalScroll + windowHeight) with
    | none => none
    | some formatted =>
      let area := prepareArea r windowHeight
      let cursor := env.StringWidth pfx + env.StringWidth buf.Document.TextBeforeCursor
      match r.toPos cursor buf.Document.TextBeforeCursor with
      | none => none
      | some (x, _) =>
        let moved : Option (List Op × Int) :=
          if x + width ≥ (r.col : Int) then backward r cursor (x + width - (r.col : Int))
          else some ([], cursor)
        match moved with
        | none => none
        | some (back, cursor) =>
          let contentHeight : Int := completions.tmp.length
          let scrollbarHeight := env.scrollbarHeight windowHeight contentHeight
          let scrollbarTop :=
            env.scrollbarTop windowHeight completions.verticalScroll contentHeight
          let selected := completions.selected - completions.verticalScroll
          match renderCompletionRows env r cursor width selected scrollbarTop scrollbarHeight
            formatted 0 with
          | none => none
          | some rows =>
            let forward : List Op :=
              if x + width ≥ (r.col : Int) then [.CursorForward (x + width - (r.col : Int))]
              else []
            some (area ++ back ++ [.SetColor .White .Cyan false] ++ rows ++ forward
              ++ [.CursorUp windowHeight, .SetColor .DefaultColor .DefaultColor false])

/-- The branch `if suggest, ok := completion.GetSelectedSuggestion(); ok` of
`Render.Render`: the calls on `r.out` and the value of `cursor` after it. -/
def renderSelected (env : Env) (r : Render σ) (buffer : Buffer)
    (completion : CompletionManager) (cursor : Int) : Option (List Op × Int) :=
  match completion.GetSelectedSuggestion with
  | none => some ([], cursor)
  | some suggest =>
    match backward r cursor (env.StringWidth
        (buffer.Document.GetWordBeforeCursorUntilSeparator completion.wordSeparator)) with
    | none => none
    | some (back, cursor) =>
      let cursor := cursor + env.StringWidth suggest.Text
      let rest := buffer.Document.TextAfterCursor
      let cursor := cursor + env.StringWidth rest
      match lineWrap env r cursor, backward r cursor (env.StringWidth rest) with
      | some wrap, some (back2, cursor) =>
        some (back
          ++ [.SetColor r.previewSuggestionTextColor r.previewSuggestionBGColor false,
              .WriteStr suggest.Text,
              .SetColor .DefaultColor .DefaultColor false,
              .WriteStr rest]
          ++ wrap ++ back2, cursor)
      | _, _ => none

/-- The normal frame of `Render.Render`: the statements from
`r.out.HideCursor()` to `r.previousCursor = cursor`, then the deferred calls
(`ShowCursor` on the single line path, then `Flush`).  The result is the calls
on `r.out` and the value assigned to `r.previousCursor`. -/
def renderFrame (env : Env) (r : Render σ) (buffer : Buffer)
    (completion : CompletionManager) (line : GoString) (cursor : Int) :
    Option (List Op × Int) :=
  let written : Option (List Op × Bool) :=
    if buffer.NewLineCount > 0 then (renderMultiline env r buffer).map fun ops => (ops, false)
    else some ([.WriteStr line], true)
  match written with
  | none => none
  | some (text, showCursor) =>
    match lineWrap env r cursor,
      backward r cursor (env.StringWidth line - buffer.DisplayCursorPosition) with
    | some wrap, some (back, cursor) =>
      match renderCompletion env r buffer completion,
        renderSelected env r buffer completion cursor with
      | some popup, some (preview, cursor) =>
        some ([.HideCursor, .EraseLine, .EraseDown] ++ renderPrefix r ++ text ++ wrap
          ++ [.SetColor .DefaultColor .DefaultColor false] ++ back ++ popup ++ preview
          ++ (if showCursor then [.ShowCursor] else []) ++ [.Flush], cursor)
      | _, _ => none
    | _, _ => none

set_option linter.dupNamespace false in
/-- `Render.Render`: the renderer after the call and the calls made on
`r.out`.  A panic is `none`; the debug log is not part of the model. -/
def Render.Render (env : Env) (r : Render σ) (buffer : Buffer) (previousText : GoString)
    (completion : CompletionManager) : Option (Render σ × List Op) :=
  if r.col = 0 then some (r, [])
  else
    let line := env.TrimSpace buffer.Text
    match moveForRender r r.previousCursor 0 previousText with
    | none => none
    | some (back, _) =>
      let pfx := getCurrentPrefix r
      let cursor := env.StringWidth pfx + env.StringWidth line
      match r.toPos cursor line with
      | none => none
      | some (_, y) =>
        let h := y + 1 + (completion.max : Int)
        if h > (r.row : Int) ∨ env.completionMargin > (r.col : Int) then
          some (r, back ++ renderWindowTooSmall r ++ [.Flush])
        else
          match renderFrame env r buffer completion line cursor with
          | none => none
          | some (frame, cursor) => some ({ r with previousCursor := cursor }, back ++ frame)

/-- `Render.BreakLine`, run with the application state `w`: the renderer, the
calls made on `r.out` and the application state after the call. -/
def BreakLine (env : Env) (r : Render σ) (buffer : Buffer) (w : σ) :
    Option (Render σ × List Op × σ) :=
  let cursor := env.StringWidth buffer.Document.TextBeforeCursor
    + env.StringWidth (getCurrentPrefix r)
  match clear r cursor buffer.Document.TextBeforeCursor with
  | none => none
  | some cleared =>
    let ops := cleared ++ renderPrefix r
      ++ [.SetColor r.inputTextColor r.inputBGColor false,
          .WriteStr (buffer.Document.Text ++ ['\n']),
          .SetColor .DefaultColor .DefaultColor false,
          .Flush]
    let w :=
      match r.breakLineCallback with
      | some callback => callback buffer.Document w
      | none => w
    some ({ r with previousCursor := 0 }, ops, w)

end Methods

/-! ## Preconditions and repeated calls -/

/-- No index or slice expression of `renderMultiline` is out of range: when
the text after the cursor has a display width other than 0, `cursorPosition`
is an index of `buffer.Text()` and `TextAfterCursor()` is not empty. -/
def MultilineInRange (env : Env) (buffer : Buffer) : Prop :=
  env.StringWidth buffer.Document.TextAfterCursor ≠ 0 →
    0 ≤ buffer.Document.cursorPosition ∧
    buffer.Document.cursorPosition < (buffer.Text.length : Int) ∧
    1 ≤ buffer.Document.TextAfterCursor.length

/-- The slice expression `formatted[verticalScroll : verticalScroll+windowHeight]`
of `renderCompletion` is in range, when there are suggestions. -/
def PopupInRange {σ : Type} (env : Env) (r : Render σ) (completions : CompletionManager) :
    Prop :=
  completions.GetSuggestions.length ≠ 0 →
    0 ≤ completions.verticalScroll ∧
    completions.verticalScroll
        + windowHeightOf (env.formatSuggestions completions.GetSuggestions
            ((r.col : Int) - env.StringWidth (getCurrentPrefix r) - 1)).1 completions
      ≤ ((env.formatSuggestions completions.GetSuggestions
            ((r.col : Int) - env.StringWidth (getCurrentPrefix r) - 1)).1.length : Int)

/-- `n` calls of `BreakLine` in a row on the same buffer: the renderer and the
application state after the last one. -/
def breakLines {σ : Type} (env : Env) (buffer : Buffer) :
    Nat → Render σ → σ → Option (Render σ × σ)
  | 0, r, w => some (r, w)
  | n + 1, r, w =>
    match BreakLine env r buffer w with
    | none => none
    | some (r', _, w') => breakLines env buffer n r' w'

/-! ## Concrete inputs

The renderer of `render_test.go` and an instance of `Env` for ASCII texts, at
which the theorems below are evaluated. -/

/-- The renderer that `TestToPos` and `TestBreakLineCallback` build, with the
width `col` (`r.col = uint16(s.cols)`) and `row` rows; the application state is the counter `i` of `TestBreakLineCallback`. -/
def testRender (row col : Nat) : Render Nat :=
  { prefix_ := "> ".toList
    livePrefixCallback := ([], false)
    breakLineCallback := none
    title := []
    row := row
    col := col
    previousCursor := 0
    prefixTextColor := .Blue
    prefixBGColor := .DefaultColor
    inputTextColor := .DefaultColor
    inputBGColor := .DefaultColor
    previewSuggestionTextColor := .Green
    previewSuggestionBGColor := .DefaultColor
    suggestionTextColor := .White
    suggestionBGColor := .Cyan
    selectedSuggestionTextColor := .Black
    selectedSuggestionBGColor := .Turquoise
    descriptionTextColor := .Black
    descriptionBGColor := .Turquoise
    selectedDescriptionTextColor := .White
    selectedDescriptionBGColor := .Cyan
    scrollbarThumbColor := .DarkGray
    scrollbarBGColor := .Cyan }

/-- The display width of a text of ASCII bytes: one column for each printable
byte, none for a control byte. -/
def asciiWidth (s : GoString) : Int :=
  ((s.filter fun c => decide (32 ≤ c.toNat ∧ c.toNat < 127)).length : Nat)

/-- The ASCII white space that `strings.TrimSpace` removes. -/
def isAsciiSpace (c : Char) : Bool :=
  c = ' ' || c = '\t' || c = '\n' || c = '\r' || c.toNat = 11 || c.toNat = 12

/-- `strings.TrimSpace` on a text of ASCII bytes. -/
def asciiTrimSpace (s : GoString) : GoString :=
  ((s.dropWhile isAsciiSpace).reverse.dropWhile isAsciiSpace).reverse

/-- An instance of `Env` for texts of ASCII bytes on a system other than
Windows, with a popup margin of 4 columns.  The formatter and the scrollbar
functions are stand-ins: they are called only when there are suggestions. -/
def asciiEnv : Env :=
  { StringWidth := asciiWidth
    TrimSpace := asciiTrimSpace
    completionMargin := 4
    formatSuggestions := fun suggests _ => (suggests, 0)
    windows := false
    scrollbarHeight := fun _ _ => 1
    scrollbarTop := fun _ _ _ => 0 }

/-- A buffer that holds the ASCII text `text` of one word, with the cursor at
its end. -/
def bufferAtEnd (text : GoString) : Buffer :=
  { Text := text
    Document :=
      { Text := text
        cursorPosition := text.length
        TextBeforeCursor := text
        TextAfterCursor := []
        GetWordBeforeCursorUntilSeparator := fun _ => text }
    NewLineCount := countNewlines text
    DisplayCursorPosition := asciiWidth text }

/-- A completion manager without suggestions, for popups of at most `max` rows. -/
def noCompletion (max : Nat) : CompletionManager :=
  { selected := -1
    tmp := []
    max := max
    verticalScroll := 0
    wordSeparator := [' ']
    GetSuggestions := []
    GetSelectedSuggestion := none }

/-- The text of the case "Multi line with overflow in one line" of `TestToPos`. -/
def overflowText : GoString :=
  "0123456\n012345678901234567890123\n01234\n0123456789".toList

/-! ## The coordinate mapper is total -/

theorem splitLines_ne_nil (text : GoString) : splitLines text ≠ [] := by
  induction text with
  | nil => simp [splitLines]
  | cons c cs ih =>
    unfold splitLines
    split
    · simp
    · split <;> simp

theorem blockStep_some (cols : Int) (hc : 0 ≤ cols) (bs : List Block) (idx : Nat)
    (line : GoString) (hlen : idx ≤ bs.length)
    (hok : ∀ b ∈ bs, 0 ≤ b.start ∧ -1 ≤ b.end_) :
    ∃ bs', blockStep cols bs idx line = some bs' ∧ idx + 1 ≤ bs'.length ∧
      ∀ b ∈ bs', 0 ≤ b.start ∧ -1 ≤ b.end_ := by
  have key : ∀ tb : Block, 0 ≤ tb.start → tb.start ≤ tb.end_ →
      ∃ bs', (some tb).map (fun thisBlock : Block =>
          bs ++ (if thisBlock.end_ - thisBlock.start > cols then
            [{ start := thisBlock.start, end_ := thisBlock.start + cols - 1 },
             { start := thisBlock.start + cols, end_ := thisBlock.end_ }]
          else [thisBlock])) = some bs' ∧ idx + 1 ≤ bs'.length ∧
        ∀ b ∈ bs', 0 ≤ b.start ∧ -1 ≤ b.end_ := by
    intro tb h0 h1
    refine ⟨_, rfl, ?_, ?_⟩
    · dsimp only
      split <;> simp <;> omega
    · intro b hb
      dsimp only at hb
      rw [List.mem_append] at hb
      rcases hb with hb | hb
      · exact hok b hb
      · split at hb
        · simp at hb
          rcases hb with rfl | rfl <;> simp <;> omega
        · simp at hb
          subst hb
          omega
  unfold blockStep
  by_cases h : idx = 0
  · simp only [h, if_true]
    exact (by simpa [h] using key ⟨0, (line.length : Int) + 1 - 1⟩ (by simp) (by simp))
  · have hlt : idx - 1 < bs.length := by omega
    obtain ⟨prev, hprev⟩ : ∃ prev, bs[idx - 1]? = some prev :=
      ⟨bs[idx - 1], List.getElem?_eq_getElem hlt⟩
    have hmem : prev ∈ bs := List.getElem?_mem hprev
    have := hok prev hmem
    simp only [h, if_false, hprev, Option.map_some']
    exact key ⟨prev.end_ + 1, prev.end_ + 1 + ((line.length : Int) + 1 - 1)⟩
      (by simp; omega) (by simp)

theorem buildBlocks_some (cols : Int) (hc : 0 ≤ cols) (lines : List GoString) :
    ∀ (idx : Nat) (bs : List Block), idx ≤ bs.length →
      (∀ b ∈ bs, 0 ≤ b.start ∧ -1 ≤ b.end_) →
      ∃ bs', buildBlocks cols lines idx bs = some bs' ∧ idx + lines.length ≤ bs'.length ∧
        ∀ b ∈ bs', 0 ≤ b.start ∧ -1 ≤ b.end_ := by
  induction lines with
  | nil => intro idx bs hlen hok; exact ⟨bs, rfl, by simpa using hlen, hok⟩
  | cons line rest ih =>
    intro idx bs hlen hok
    obtain ⟨bs1, h1, hlen1, hok1⟩ := blockStep_some cols hc bs idx line hlen hok
    obtain ⟨bs2, h2, hlen2, hok2⟩ := ih (idx + 1) bs1 hlen1 hok1
    refine ⟨bs2, ?_, ?_, hok2⟩
    · simp [buildBlocks, h1, h2]
    · simp only [List.length_cons]; omega

theorem scanBlocks_nonneg (cursor : Int) (bs : List Block) :
    ∀ (idx : Nat) (xy : Int × Int), 0 ≤ xy.1 → 0 ≤ xy.2 →
      0 ≤ (scanBlocks cursor bs idx xy).1 ∧ 0 ≤ (scanBlocks cursor bs idx xy).2 := by
  induction bs with
  | nil => intro idx xy h1 h2; exact ⟨h1, h2⟩
  | cons b rest ih =>
    intro idx xy h1 h2
    unfold scanBlocks
    split
    · rename_i h
      exact ih (idx + 1) _ (by simp; omega) (by simp)
    · exact ih (idx + 1) xy h1 h2

theorem lineBlocksOf_some (col : Nat) (text : GoString) :
    ∃ bs, lineBlocksOf col text = some bs ∧ (splitLines text).length ≤ bs.length ∧
      ∀ b ∈ bs, 0 ≤ b.start ∧ -1 ≤ b.end_ := by
  obtain ⟨bs, h, hlen, hok⟩ := buildBlocks_some (col : Int) (by simp) (splitLines text) 0 []
    (by simp) (by simp)
  exact ⟨bs, h, by simpa using hlen, hok⟩

theorem toPos_some (col : Nat) (cursor : Int) (text : GoString) :
    ∃ x y, toPos col cursor text = some (x, y) ∧ 0 ≤ x ∧ 0 ≤ y := by
  obtain ⟨bs, h, -, -⟩ := lineBlocksOf_some col text
  have := scanBlocks_nonneg cursor bs 0 (0, 0) (by simp) (by simp)
  exact ⟨_, _, by simp [toPos, h], this.1, this.2⟩

theorem toPos_nil (col : Nat) (cursor : Int) : toPos col cursor [] = some (0, 0) := by
  have h : ¬ ((0 : Int) > (col : Int)) := by omega
  have h2 : ¬ (cursor > 0 ∧ cursor < 0) := by omega
  simp [toPos, lineBlocksOf, splitLines, buildBlocks, blockStep, scanBlocks, h2]

/-! ## Texts none of whose lines is longer than the width -/

theorem buildBlocks_noWrap (cols : Int) (lines : List GoString) :
    ∀ (idx : Nat) (bs : List Block) (e : Int),
      (∀ l ∈ lines, (l.length : Int) ≤ cols) → bs.length = idx →
      (idx = 0 → e = 0) →
      (idx ≠ 0 → ∃ prev, bs[idx - 1]? = some prev ∧ prev.end_ + 1 = e) →
      buildBlocks cols lines idx bs = some (bs ++ lineSpans e lines) := by
  induction lines with
  | nil => intro idx bs e _ _ _ _; simp [buildBlocks, lineSpans]
  | cons line rest ih =>
    intro idx bs e hw hlen h0 h1
    have hline : ¬ ((line.length : Int) > cols) := by
      have := hw line (List.mem_cons_self _ _); omega
    have hstep : blockStep cols bs idx line = some (bs ++ [⟨e, e + line.length⟩]) := by
      unfold blockStep
      by_cases h : idx = 0
      · have he := h0 h
        subst he
        simp [h, hline]
      · obtain ⟨prev, hprev, he⟩ := h1 h
        subst he
        simp [h, hprev, hline]
    have hrest := ih (idx + 1) (bs ++ [⟨e, e + line.length⟩]) (e + line.length + 1)
      (fun l hl => hw l (List.mem_cons_of_mem _ hl)) (by simp [hlen]) (by simp)
      (fun _ => ⟨⟨e, e + line.length⟩, by simp [← hlen], rfl⟩)
    simp [buildBlocks, hstep, hrest, lineSpans]

theorem lineSpans_splitLines (text : GoString) :
    ∀ (start cur : Int), ∃ l ls, splitLines text = l :: ls ∧
      textSpans start cur text
        = ⟨start, cur + l.length⟩ :: lineSpans (cur + l.length + 1) ls := by
  induction text with
  | nil => intro start cur; exact ⟨[], [], rfl, by simp [textSpans, lineSpans]⟩
  | cons c cs ih =>
    intro start cur
    by_cases hc : c = '\n'
    · obtain ⟨l, ls, hs, ht⟩ := ih (cur + 1) (cur + 1)
      refine ⟨[], splitLines cs, by simp [splitLines, hc], ?_⟩
      simp [textSpans, hc, hs, ht, lineSpans]
    · obtain ⟨l, ls, hs, ht⟩ := ih start (cur + 1)
      refine ⟨c :: l, ls, by simp [splitLines, hc, hs], ?_⟩
      simp only [textSpans, hc, if_false, ht, List.length_cons, Nat.cast_add, Nat.cast_one]
      congr 2 <;> ring_nf

theorem lineBlocksOf_noWrap (col : Nat) (text : GoString)
    (hw : ∀ l ∈ splitLines text, l.length ≤ col) :
    lineBlocksOf col text = some (textSpans 0 0 text) := by
  have h := buildBlocks_noWrap (col : Int) (splitLines text) 0 [] 0
    (fun l hl => by exact_mod_cast hw l hl) rfl (fun _ => rfl) (fun h => absurd rfl h)
  obtain ⟨l, ls, hs, ht⟩ := lineSpans_splitLines text 0 0
  rw [lineBlocksOf, h, ht, hs]
  simp [lineSpans]

theorem scanBlocks_textSpans_before (text : GoString) :
    ∀ (start cur : Int) (idx : Nat) (xy : Int × Int) (c0 : Int), c0 ≤ start → start ≤ cur →
      scanBlocks c0 (textSpans start cur text) idx xy = xy := by
  induction text with
  | nil =>
    intro start cur idx xy c0 h1 h2
    have h : ¬ (c0 > start ∧ c0 < cur) := by omega
    simp [textSpans, scanBlocks, h]
  | cons c cs ih =>
    intro start cur idx xy c0 h1 h2
    by_cases hc : c = '\n'
    · have h : ¬ (c0 > start ∧ c0 < cur) := by omega
      simp only [textSpans, hc, if_true, scanBlocks, h, if_false]
      exact ih (cur + 1) (cur + 1) (idx + 1) xy c0 (by omega) (by omega)
    · simp only [textSpans, hc, if_false]
      exact ih start (cur + 1) idx xy c0 h1 (by omega)

theorem scanBlocks_textSpans_inside (text : GoString) :
    ∀ (start cur : Int) (idx : Nat) (xy : Int × Int) (c0 : Int), start < c0 → c0 < cur →
      scanBlocks c0 (textSpans start cur text) idx xy = (c0 - start, (idx : Int)) := by
  induction text with
  | nil =>
    intro start cur idx xy c0 h1 h2
    have h : c0 > start ∧ c0 < cur := by omega
    simp [textSpans, scanBlocks, h]
  | cons c cs ih =>
    intro start cur idx xy c0 h1 h2
    by_cases hc : c = '\n'
    · have h : c0 > start ∧ c0 < cur := by omega
      simp only [textSpans, hc, if_true, scanBlocks, h]
      exact scanBlocks_textSpans_before cs (cur + 1) (cur + 1) (idx + 1) _ c0 (by omega)
        (by omega)
    · simp only [textSpans, hc, if_false]
      exact ih start (cur + 1) idx xy c0 h1 (by omega)

theorem scanBlocks_textSpans_at (text : GoString) :
    ∀ (start cur : Int) (idx : Nat) (xy : Int × Int) (k s : Nat), start ≤ cur →
      k < text.length → s ≤ k →
      (∀ j, s ≤ j → j ≤ k → text[j]? ≠ some '\n') →
      (s = 0 ∨ text[s - 1]? = some '\n') →
      (k = s → s = 0 ∧ start < cur) →
      scanBlocks (cur + k) (textSpans start cur text) idx xy
        = ((if s = 0 then cur + k - start else (k : Int) - s),
           ((idx + (text.take k).count '\n' : Nat) : Int)) := by
  induction text with
  | nil => intro start cur idx xy k s _ hk; simp at hk
  | cons c cs ih =>
    intro start cur idx xy k s hsc hk hsk hnl hs hks
    cases k with
    | zero =>
      have hs0 : s = 0 := by omega
      have hlt := (hks hs0.symm).2
      have hc : c ≠ '\n' := by
        have := hnl 0 (by omega) (by omega)
        simpa using this
      simp only [textSpans, hc, if_false, hs0, if_true]
      have := scanBlocks_textSpans_inside cs start (cur + 1) idx xy (cur + (0 : Nat)) (by simpa using hlt)
        (by simp)
      simpa using this
    | succ k' =>
      have hk' : k' < cs.length := by simpa using hk
      by_cases hc : c = '\n'
      · have hspos : 0 < s := by
          rcases Nat.eq_zero_or_pos s with h0 | h0
          · have := hnl 0 (by omega) (by omega)
            simp [hc] at this
          · exact h0
        have hno : ¬ (cur + ((k' + 1 : Nat) : Int) > start ∧ cur + ((k' + 1 : Nat) : Int) < cur) := by
          omega
        simp only [textSpans, hc, if_true, scanBlocks, hno, if_false]
        have hih := ih (cur + 1) (cur + 1) (idx + 1) xy k' (s - 1) (le_refl _) hk' (by omega)
          (fun j h1 h2 => by
            have := hnl (j + 1) (by omega) (by omega)
            simpa using this)
          (by
            rcases Nat.eq_zero_or_pos (s - 1) with h0 | h0
            · exact Or.inl h0
            · right
              rcases hs with hs | hs
              · omega
              · have e : s - 1 = (s - 1 - 1) + 1 := by omega
                rw [e] at hs
                simpa using hs)
          (fun h => by
            have : k' + 1 = s := by omega
            have := (hks this).1
            omega)
        have e1 : cur + ((k' + 1 : Nat) : Int) = cur + 1 + (k' : Int) := by push_cast; ring
        rw [e1, hih]
        have hcount : (List.take (k' + 1) ('\n' :: cs)).count '\n'
            = (List.take k' cs).count '\n' + 1 := by simp
        refine Prod.ext ?_ ?_
        · by_cases h1 : s - 1 = 0
          · have : s = 1 := by omega
            subst this
            simp
          · have hs0 : s ≠ 0 := by omega
            simp only [h1, hs0, if_false]
            push_cast
            omega
        · simp only [hcount]; push_cast; omega
      · have hs1 : s ≠ 1 := by
          intro h1
          rcases hs with hs | hs
          · omega
          · subst h1
            simp at hs
            exact hc hs
        simp only [textSpans, hc, if_false]
        have hih := ih start (cur + 1) idx xy k' (s - 1) (by omega) hk' (by omega)
          (fun j h1 h2 => by
            have := hnl (j + 1) (by omega) (by omega)
            simpa using this)
          (by
            rcases Nat.eq_zero_or_pos (s - 1) with h0 | h0
            · exact Or.inl h0
            · right
              rcases hs with hs | hs
              · omega
              · have e : s - 1 = (s - 1 - 1) + 1 := by omega
                rw [e] at hs
                simpa using hs)
          (fun h => by
            rcases Nat.eq_zero_or_pos s with h0 | h0
            · exact ⟨by omega, by omega⟩
            · have : k' + 1 = s := by omega
              have := (hks this).1
              omega)
        have e1 : cur + ((k' + 1 : Nat) : Int) = cur + 1 + (k' : Int) := by push_cast; ring
        rw [e1, hih]
        have hcount : (List.take (k' + 1) (c :: cs)).count '\n'
            = (List.take k' cs).count '\n' := by
          simp [List.count_cons, hc]
        refine Prod.ext ?_ ?_
        · by_cases h0 : s = 0
          · subst h0
            simp
          · have h1 : s - 1 ≠ 0 := by omega
            simp only [h1, h0, if_false]
            omega
        · simp only [hcount]

theorem splitLines_of_no_newline (text : GoString) (h : '\n' ∉ text) :
    splitLines text = [text] := by
  induction text with
  | nil => rfl
  | cons c cs ih =>
    have hc : c ≠ '\n' := fun e => h (by simp [e])
    have hcs : '\n' ∉ cs := fun e => h (List.mem_cons_of_mem _ e)
    simp [splitLines, hc, ih hcs]

theorem lineBlocksOf_of_no_newline (col : Nat) (text : GoString) (h : '\n' ∉ text) :
    lineBlocksOf col text =
      some (if (text.length : Int) > (col : Int) then
          [⟨0, (col : Int) - 1⟩, ⟨(col : Int), (text.length : Int)⟩]
        else [⟨0, (text.length : Int)⟩]) := by
  simp only [lineBlocksOf, splitLines_of_no_newline text h, buildBlocks, blockStep]
  split <;> simp_all

theorem lineBlocksOf_overflow_blocks :
    lineBlocksOf 20 overflowText
      = some [⟨0, 7⟩, ⟨8, 27⟩, ⟨28, 32⟩, ⟨28, 33⟩, ⟨33, 43⟩] := by
  decide

/-! ## The coordinate mapper: claims -/

/-- C10: `toPos` is total.  For every text, cursor (negative and past the end
included) and width (0 included) the first loop never looks up
`lineBlocks[idx-1]` out of range: it ends with a block list that holds at
least one block for each line, and `toPos` returns a pair whose column and row
are both at least 0. -/
theorem toPos_total (col : Nat) (cursor : Int) (text : GoString) :
    (∃ bs, lineBlocksOf col text = some bs ∧ (splitLines text).length ≤ bs.length) ∧
    (∀ (lines : List GoString) (idx : Nat) (bs : List Block), idx ≤ bs.length →
      (∀ b ∈ bs, 0 ≤ b.start ∧ -1 ≤ b.end_) →
      ∃ bs', buildBlocks (col : Int) lines idx bs = some bs' ∧
        idx + lines.length ≤ bs'.length) ∧
    ∃ x y, toPos col cursor text = some (x, y) ∧ 0 ≤ x ∧ 0 ≤ y := by
  refine ⟨?_, ?_, toPos_some col cursor text⟩
  · obtain ⟨bs, h, hlen, -⟩ := lineBlocksOf_some col text
    exact ⟨bs, h, hlen⟩
  · intro lines idx bs hlen hok
    obtain ⟨bs', h, hlen', -⟩ := buildBlocks_some (col : Int) (by simp) lines idx bs hlen hok
    exact ⟨bs', h, hlen'⟩

/-- C2: when no line of the text is longer than the width, and `k` is an offset
of the text strictly inside a line (the line starts at offset `s < k`, and no
byte from `s` to `k` is a newline), `toPos` returns the column `k - s` and as
row the number of newline bytes before offset `k`. -/
theorem toPos_noWrap (col : Nat) (text : GoString) (k s : Nat)
    (hw : ∀ l ∈ splitLines text, l.length ≤ col)
    (hk : k < text.length) (hsk : s < k)
    (hs : s = 0 ∨ text[s - 1]? = some '\n')
    (hnl : ∀ j, s ≤ j → j ≤ k → text[j]? ≠ some '\n') :
    toPos col k text = some ((k : Int) - s, (((text.take k).count '\n' : Nat) : Int)) := by
  have h := scanBlocks_textSpans_at text 0 0 0 (0, 0) k s (le_refl _) hk (le_of_lt hsk) hnl hs
    (fun e => absurd e (by omega))
  rw [toPos, lineBlocksOf_noWrap col text hw]
  simp only [Option.map_some', zero_add] at h ⊢
  rw [h]
  by_cases h0 : s = 0
  · simp [h0]
  · simp [h0]

/-- C2, at the inputs of the claim: `"ab\ncd"` at width 20 and offset 4 gives
column 1 in row 1, and the text of the case "Multi line" of `TestToPos` at
offset 13 gives column 3 in row 2. -/
theorem toPos_noWrap_witness :
    toPos 20 4 "ab\ncd".toList = some (1, 1) ∧
    toPos 20 13 "0123456\n0\n01234\n0123456789".toList = some (3, 2) := by
  constructor
  · have h := toPos_noWrap 20 "ab\ncd".toList 4 3 (by decide) (by decide) (by decide)
      (by decide) (by intro j h1 h2; interval_cases j <;> decide)
    simpa using h
  · have h := toPos_noWrap 20 "0123456\n0\n01234\n0123456789".toList 13 10 (by decide)
      (by decide) (by decide) (by decide) (by intro j h1 h2; interval_cases j <;> decide)
    simpa using h

/-- C1, as amended: for a width of at least 1, a text without newline and an
interior offset `k`, `toPos` returns the column `k % width` in row `k / width`
when the text is not longer than the width, or `k` is below `width - 1`, or `k`
lies strictly between `width` and `2 * width`. -/
theorem toPos_singleLine (col : Nat) (text : GoString) (k : Nat)
    (hcol : 1 ≤ col) (hnl : '\n' ∉ text) (hk0 : 0 < k) (hk : k < text.length)
    (hreg : text.length ≤ col ∨ k + 1 < col ∨ (col < k ∧ k < 2 * col)) :
    toPos col k text = some ((k : Int) % (col : Int), (k : Int) / (col : Int)) := by
  rw [toPos, lineBlocksOf_of_no_newline col text hnl]
  have hmod : ∀ a b : Nat, ((a : Int) % (b : Int), (a : Int) / (b : Int))
      = (((a % b : Nat) : Int), ((a / b : Nat) : Int)) := by
    intro a b; simp
  rw [hmod]
  by_cases hlong : (text.length : Int) > (col : Int)
  · have hlen : ¬ text.length ≤ col := by omega
    rcases hreg with h | h | ⟨h1, h2⟩
    · exact absurd h hlen
    · have c1 : (k : Int) > 0 ∧ (k : Int) < (col : Int) - 1 := by omega
      have c2 : ¬ ((k : Int) > (col : Int) ∧ (k : Int) < (text.length : Int)) := by omega
      simp only [hlong, if_true, Option.map_some', scanBlocks, c1, c2, if_false]
      rw [Nat.mod_eq_of_lt (by omega), Nat.div_eq_of_lt (by omega)]
      simp
    · have c1 : ¬ ((k : Int) > 0 ∧ (k : Int) < (col : Int) - 1) := by omega
      have c2 : (k : Int) > (col : Int) ∧ (k : Int) < (text.length : Int) := by omega
      simp only [hlong, if_true, Option.map_some', scanBlocks, c1, c2, if_false]
      have e1 : k % col = k - col := by
        rw [Nat.mod_eq_sub_mod (by omega), Nat.mod_eq_of_lt (by omega)]
      have e2 : k / col = 1 := by
        rw [Nat.div_eq_sub_div (by omega) (by omega), Nat.div_eq_of_lt (by omega)]
      rw [e1, e2]
      simp
      omega
  · have c1 : (k : Int) > 0 ∧ (k : Int) < (text.length : Int) := by omega
    simp only [hlong, if_false, Option.map_some', scanBlocks, c1, if_true]
    rw [Nat.mod_eq_of_lt (by omega), Nat.div_eq_of_lt (by omega)]
    simp

/-- C1 as amended, at the input of the case "Single line" of `TestToPos` (width
20, `"0123456"`, offset 3) and at an offset of the second row of a text longer
than the width. -/
theorem toPos_singleLine_witness :
    toPos 20 3 "0123456".toList = some (3, 0) ∧ toPos 3 5 "abcdefg".toList = some (2, 1) := by
  constructor
  · have h := toPos_singleLine 20 "0123456".toList 3 (by decide) (by decide) (by decide)
      (by decide) (by decide)
    simpa using h
  · have h := toPos_singleLine 3 "abcdefg".toList 5 (by decide) (by decide) (by decide)
      (by decide) (by decide)
    simpa using h

/-- C1 as stated fails: at width 3, the text `"abcdef"` has no newline and 3 is
an interior offset, for which the claim gives column `3 % 3 = 0` in row
`3 / 3 = 1`; `toPos` returns column 0 in row 0, as it does at offset 2. -/
theorem toPos_singleLine_counterexample :
    (1 ≤ 3 ∧ '\n' ∉ "abcdef".toList ∧ 0 < 3 ∧ 3 < "abcdef".toList.length) ∧
    toPos 3 3 "abcdef".toList = some (0, 0) ∧
    toPos 3 3 "abcdef".toList ≠ some ((3 : Int) % 3, (3 : Int) / 3) ∧
    toPos 3 2 "abcdef".toList = some (0, 0) ∧
    toPos 3 2 "abcdef".toList ≠ some ((2 : Int) % 3, (2 : Int) / 3) := by
  decide

/-- C4 fails on the code: at width 20 the blocks that `toPos` builds for the
text of the case "Multi line with overflow in one line" of `TestToPos` are
`{0,7} {8,27} {28,32} {28,33} {33,43}`: the block of the third line starts at
28, not at 33, the offset after the end of the block before it, and the list
is not contiguous. -/
theorem lineBlocksOf_overflow_not_contiguous :
    lineBlocksOf 20 overflowText
      = some [⟨0, 7⟩, ⟨8, 27⟩, ⟨28, 32⟩, ⟨28, 33⟩, ⟨33, 43⟩] ∧
    ¬ Contiguous [⟨0, 7⟩, ⟨8, 27⟩, ⟨28, 32⟩, ⟨28, 33⟩, ⟨33, 43⟩] ∧
    ∃ bs, lineBlocksOf 20 overflowText = some bs ∧ ¬ Contiguous bs := by
  have h1 := lineBlocksOf_overflow_blocks
  have h2 : ¬ Contiguous [⟨0, 7⟩, ⟨8, 27⟩, ⟨28, 32⟩, ⟨28, 33⟩, ⟨33, 43⟩] := by
    simp [Contiguous]
  exact ⟨h1, h2, _, h1, h2⟩

/-- C5 fails on the code: at width 20, for the text of the case "Multi line
with overflow in one line" of `TestToPos`, the offset 32 is the end of the
block `{28,32}` that `toPos` builds, and `toPos` returns column 4 in row 3 for
it, not `(0, 0)`. -/
theorem toPos_boundary_matched :
    (∃ bs b, lineBlocksOf 20 overflowText = some bs ∧ b ∈ bs ∧ b.end_ = 32) ∧
    toPos 20 32 overflowText = some (4, 3) := by
  refine ⟨⟨_, ⟨28, 32⟩, lineBlocksOf_overflow_blocks, by simp, rfl⟩, by decide⟩

/-! ## Cursor motion -/

section MotionLemmas

variable {σ : Type}

theorem move_eq (r : Render σ) (from_ to_ : Int) :
    move r from_ to_ = some ([.CursorUp 0, .CursorBackward 0], to_) := by
  simp [move, Render.toPos, toPos_nil]

theorem backward_eq (r : Render σ) (from_ n : Int) :
    backward r from_ n = some ([.CursorUp 0, .CursorBackward 0], from_ - n) := by
  simp [backward, move_eq]

theorem moveForRender_some (r : Render σ) (from_ to_ : Int) (text : GoString) :
    ∃ ops, moveForRender r from_ to_ text = some (ops, to_) := by
  obtain ⟨x1, y1, h1, -, -⟩ := toPos_some r.col
    ((r.col : Int) * countNewlines (getCurrentPrefix r ++ text) + from_)
    (getCurrentPrefix r ++ text)
  obtain ⟨x2, y2, h2, -, -⟩ := toPos_some r.col to_ (getCurrentPrefix r ++ text)
  exact ⟨[.CursorUp (y1 - y2), .CursorBackward (x1 - x2)],
    by simp [moveForRender, Render.toPos, h1, h2]⟩

theorem lineWrap_some (env : Env) (r : Render σ) (cursor : Int) (hcol : r.col ≠ 0) :
    ∃ ops, lineWrap env r cursor = some ops := by
  unfold lineWrap
  repeat' split
  all_goals exact ⟨_, rfl⟩

end MotionLemmas

/-- C3 fails on the code: at width 20, `backward(8, 3)` returns 5 after the
calls `CursorUp(0)` and `CursorBackward(0)`, not after a backward move of
`8 % 20 - 5 % 20 = 3` columns: `toPos` with the empty text returns `(0, 0)`
for both offsets. -/
theorem backward_emits_no_motion :
    backward (testRender 0 20) 8 3 = some ([.CursorUp 0, .CursorBackward 0], 5) ∧
    toPos 20 8 [] = some (0, 0) ∧ toPos 20 5 [] = some (0, 0) ∧
    [Op.CursorUp 0, Op.CursorBackward 0]
      ≠ [Op.CursorUp ((8 : Int) / 20 - 5 / 20), Op.CursorBackward ((8 : Int) % 20 - 5 % 20)] := by
  refine ⟨by simp [backward_eq], toPos_nil _ _, toPos_nil _ _, by decide⟩

/-! ## The frame renderer -/

section FrameLemmas

variable {σ : Type}

theorem renderCompletionRow_some (env : Env) (r : Render σ)
    (cursor width selected top height : Int) (s : Suggest) (i : Nat) (hcol : r.col ≠ 0) :
    ∃ ops, renderCompletionRow env r cursor width selected top height s i = some ops := by
  obtain ⟨wrap, hw⟩ := lineWrap_some env r (cursor + width) hcol
  simp only [renderCompletionRow, hw, backward_eq]
  exact ⟨_, rfl⟩

theorem renderCompletionRows_some (env : Env) (r : Render σ)
    (cursor width selected top height : Int) (hcol : r.col ≠ 0) (rows : List Suggest) :
    ∀ i, ∃ ops, renderCompletionRows env r cursor width selected top height rows i
      = some ops := by
  induction rows with
  | nil => intro i; exact ⟨_, rfl⟩
  | cons s rows ih =>
    intro i
    obtain ⟨ops, h1⟩ := renderCompletionRow_some env r cursor width selected top height s i hcol
    obtain ⟨rest, h2⟩ := ih (i + 1)
    exact ⟨ops ++ rest, by simp only [renderCompletionRows, h1, h2]⟩

theorem windowHeightOf_nonneg (formatted : List Suggest) (completions : CompletionManager) :
    0 ≤ windowHeightOf formatted completions := by
  unfold windowHeightOf
  split <;> omega

theorem renderCompletion_some (env : Env) (r : Render σ) (buf : Buffer)
    (completions : CompletionManager) (hcol : r.col ≠ 0)
    (hpopup : PopupInRange env r completions) :
    ∃ ops, renderCompletion env r buf completions = some ops := by
  unfold renderCompletion
  by_cases h0 : completions.GetSuggestions.length = 0
  · simp only [h0, if_true]
    exact ⟨_, rfl⟩
  · obtain ⟨hlo, hhi⟩ := hpopup h0
    have hwh := windowHeightOf_nonneg (env.formatSuggestions completions.GetSuggestions
      ((r.col : Int) - env.StringWidth (getCurrentPrefix r) - 1)).1 completions
    obtain ⟨x, y, hpos, -, -⟩ := toPos_some r.col
      (env.StringWidth (getCurrentPrefix r) + env.StringWidth buf.Document.TextBeforeCursor)
      buf.Document.TextBeforeCursor
    have hslice : ∃ formatted, sliceRange (env.formatSuggestions completions.GetSuggestions
        ((r.col : Int) - env.StringWidth (getCurrentPrefix r) - 1)).1
        completions.verticalScroll (completions.verticalScroll + windowHeightOf
          (env.formatSuggestions completions.GetSuggestions
            ((r.col : Int) - env.StringWidth (getCurrentPrefix r) - 1)).1 completions)
        = some formatted := by
      unfold sliceRange
      rw [if_pos ⟨hlo, by omega, hhi⟩]
      exact ⟨_, rfl⟩
    obtain ⟨formatted, hf⟩ := hslice
    simp only [h0, if_false, hf, Render.toPos, hpos]
    by_cases hx : x + ((env.formatSuggestions completions.GetSuggestions
        ((r.col : Int) - env.StringWidth (getCurrentPrefix r) - 1)).2 + 1) ≥ (r.col : Int)
    · simp only [hx, if_true, backward_eq]
      obtain ⟨rows, hr⟩ := renderCompletionRows_some env r
        (env.StringWidth (getCurrentPrefix r) + env.StringWidth buf.Document.TextBeforeCursor
          - (x + ((env.formatSuggestions completions.GetSuggestions
            ((r.col : Int) - env.StringWidth (getCurrentPrefix r) - 1)).2 + 1) - (r.col : Int)))
        ((env.formatSuggestions completions.GetSuggestions
            ((r.col : Int) - env.StringWidth (getCurrentPrefix r) - 1)).2 + 1)
        (completions.selected - completions.verticalScroll)
        (env.scrollbarTop (windowHeightOf (env.formatSuggestions completions.GetSuggestions
            ((r.col : Int) - env.StringWidth (getCurrentPrefix r) - 1)).1 completions)
          completions.verticalScroll completions.tmp.length)
        (env.scrollbarHeight (windowHeightOf (env.formatSuggestions completions.GetSuggestions
            ((r.col : Int) - env.StringWidth (getCurrentPrefix r) - 1)).1 completions)
          completions.tmp.length) hcol formatted 0
      simp only [hr]
      exact ⟨_, rfl⟩
    · simp only [hx, if_false]
      obtain ⟨rows, hr⟩ := renderCompletionRows_some env r
        (env.StringWidth (getCurrentPrefix r) + env.StringWidth buf.Document.TextBeforeCursor)
        ((env.formatSuggestions completions.GetSuggestions
            ((r.col : Int) - env.StringWidth (getCurrentPrefix r) - 1)).2 + 1)
        (completions.selected - completions.verticalScroll)
        (env.scrollbarTop (windowHeightOf (env.formatSuggestions completions.GetSuggestions
            ((r.col : Int) - env.StringWidth (getCurrentPrefix r) - 1)).1 completions)
          completions.verticalScroll completions.tmp.length)
        (env.scrollbarHeight (windowHeightOf (env.formatSuggestions completions.GetSuggestions
            ((r.col : Int) - env.StringWidth (getCurrentPrefix r) - 1)).1 completions)
          completions.tmp.length) hcol formatted 0
      simp only [hr]
      exact ⟨_, rfl⟩

theorem renderMultiline_some (env : Env) (r : Render σ) (buffer : Buffer)
    (h : MultilineInRange env buffer) : ∃ ops, renderMultiline env r buffer = some ops := by
  have hc : ∃ p, cursorCell env buffer = some p := by
    unfold cursorCell
    by_cases h0 : env.StringWidth buffer.Document.TextAfterCursor = 0
    · simp only [h0, if_true]
      exact ⟨_, rfl⟩
    · obtain ⟨h1, h2, h3⟩ := h h0
      have hb : ∃ b, byteAt buffer.Text buffer.Document.cursorPosition = some b := by
        unfold byteAt
        rw [if_pos h1]
        have hlt : buffer.Document.cursorPosition.toNat < buffer.Text.length := by omega
        exact ⟨_, List.getElem?_eq_getElem hlt⟩
      have hs : ∃ a, sliceRange buffer.Document.TextAfterCursor 1
          buffer.Document.TextAfterCursor.length = some a := by
        unfold sliceRange
        rw [if_pos ⟨by omega, by omega, le_refl _⟩]
        exact ⟨_, rfl⟩
      obtain ⟨b, hb⟩ := hb
      obtain ⟨a, hs⟩ := hs
      simp only [h0, if_false, hb, hs]
      exact ⟨_, rfl⟩
  obtain ⟨p, hp⟩ := hc
  simp only [renderMultiline, hp, Option.map_some']
  exact ⟨_, rfl⟩

theorem renderFrame_no_selection (env : Env) (r : Render σ) (buffer : Buffer)
    (completion : CompletionManager) (line : GoString) (cursor : Int)
    (hcol : r.col ≠ 0) (hsel : completion.GetSelectedSuggestion = none)
    (hmulti : buffer.NewLineCount > 0 → MultilineInRange env buffer)
    (hpopup : PopupInRange env r completion) :
    ∃ ops, renderFrame env r buffer completion line cursor
      = some (ops, cursor - (env.StringWidth line - buffer.DisplayCursorPosition)) := by
  obtain ⟨wrap, hw⟩ := lineWrap_some env r cursor hcol
  obtain ⟨popup, hp⟩ := renderCompletion_some env r buffer completion hcol hpopup
  unfold renderFrame
  by_cases hn : buffer.NewLineCount > 0
  · obtain ⟨text, ht⟩ := renderMultiline_some env r buffer (hmulti hn)
    simp only [hn, if_true, ht, Option.map_some', hw, backward_eq, hp, renderSelected, hsel]
    exact ⟨_, rfl⟩
  · simp only [hn, if_false, hw, backward_eq, hp, renderSelected, hsel]
    exact ⟨_, rfl⟩

theorem renderCompletionRows_previousCursor (env : Env) (r : Render σ) (p : Int)
    (cursor width selected top height : Int) (rows : List Suggest) :
    ∀ i, renderCompletionRows env { r with previousCursor := p } cursor width selected top
        height rows i
      = renderCompletionRows env r cursor width selected top height rows i := by
  induction rows with
  | nil => intro i; rfl
  | cons s rows ih =>
    intro i
    simp only [renderCompletionRows, ih]
    rfl

theorem renderCompletion_previousCursor (env : Env) (r : Render σ) (p : Int) (buf : Buffer)
    (completions : CompletionManager) :
    renderCompletion env { r with previousCursor := p } buf completions
      = renderCompletion env r buf completions := by
  unfold renderCompletion
  simp only [renderCompletionRows_previousCursor]
  rfl

theorem renderFrame_previousCursor (env : Env) (r : Render σ) (p : Int) (buffer : Buffer)
    (completion : CompletionManager) (line : GoString) (cursor : Int) :
    renderFrame env { r with previousCursor := p } buffer completion line cursor
      = renderFrame env r buffer completion line cursor := by
  unfold renderFrame
  simp only [renderCompletion_previousCursor]
  rfl

theorem BreakLine_eq (env : Env) (r : Render σ) (buffer : Buffer) (w : σ) :
    ∃ ops, BreakLine env r buffer w
      = some ({ r with previousCursor := 0 }, ops,
          match r.breakLineCallback with
          | some callback => callback buffer.Document w
          | none => w) := by
  obtain ⟨ops, h⟩ := moveForRender_some r
    (env.StringWidth buffer.Document.TextBeforeCursor + env.StringWidth (getCurrentPrefix r)) 0
    buffer.Document.TextBeforeCursor
  simp only [BreakLine, clear, h, Option.map_some']
  exact ⟨_, rfl⟩

theorem breakLines_iterate (env : Env) (buffer : Buffer) (callback : Document → σ → σ) :
    ∀ (n : Nat) (r : Render σ) (w : σ), r.breakLineCallback = some callback →
      ∃ r' : Render σ, breakLines env buffer n r w = some (r', (callback buffer.Document)^[n] w)
        ∧ r'.breakLineCallback = some callback := by
  intro n
  induction n with
  | zero => intro r w h; exact ⟨r, rfl, h⟩
  | succ n ih =>
    intro r w h
    obtain ⟨ops, hb⟩ := BreakLine_eq env r buffer w
    obtain ⟨r', h1, h2⟩ := ih { r with previousCursor := 0 } (callback buffer.Document w) h
    refine ⟨r', ?_, h2⟩
    simp only [breakLines, hb, h, Function.iterate_succ, Function.comp]
    simp only [h] at h1
    exact h1

end FrameLemmas

/-! ## The frame renderer and the line commit handler: claims -/

/-- C6: a render cycle with a column count other than 0, in a window that the
height check finds large enough, with no suggestion selected and every index
and slice expression in range, returns, and the `previousCursor` it stores is
the display width of the current prefix plus the display cursor position of
the buffer, whatever `previousCursor` was before. -/
theorem Render_previousCursor {σ : Type} (env : Env) (r : Render σ) (buffer : Buffer)
    (previousText : GoString) (completion : CompletionManager) (x y : Int)
    (hcol : r.col ≠ 0)
    (hpos : r.toPos (env.StringWidth (getCurrentPrefix r)
        + env.StringWidth (env.TrimSpace buffer.Text)) (env.TrimSpace buffer.Text) = some (x, y))
    (hfit : ¬ (y + 1 + (completion.max : Int) > (r.row : Int)
        ∨ env.completionMargin > (r.col : Int)))
    (hsel : completion.GetSelectedSuggestion = none)
    (hmulti : buffer.NewLineCount > 0 → MultilineInRange env buffer)
    (hpopup : PopupInRange env r completion) :
    ∃ ops, Render.Render env r buffer previousText completion
      = some ({ r with previousCursor :=
          env.StringWidth (getCurrentPrefix r) + buffer.DisplayCursorPosition }, ops) := by
  obtain ⟨back, hb⟩ := moveForRender_some r r.previousCursor 0 previousText
  obtain ⟨frame, hf⟩ := renderFrame_no_selection env r buffer completion
    (env.TrimSpace buffer.Text)
    (env.StringWidth (getCurrentPrefix r) + env.StringWidth (env.TrimSpace buffer.Text))
    hcol hsel hmulti hpopup
  have e : env.StringWidth (getCurrentPrefix r) + env.StringWidth (env.TrimSpace buffer.Text)
      - (env.StringWidth (env.TrimSpace buffer.Text) - buffer.DisplayCursorPosition)
      = env.StringWidth (getCurrentPrefix r) + buffer.DisplayCursorPosition := by ring
  rw [e] at hf
  simp only [Render.Render, hcol, if_false, hb, hpos, hfit, hf]
  exact ⟨_, rfl⟩

/-- C6, at the input of the claim: prompt `"> "`, buffer text `"select"` with
the cursor at its end, 20 columns (and 24 rows), no suggestions: the stored
`previousCursor` is 8. -/
theorem Render_previousCursor_witness :
    ∃ ops, Render.Render asciiEnv (testRender 24 20) (bufferAtEnd "select".toList) []
        (noCompletion 6)
      = some ({ testRender 24 20 with previousCursor := 8 }, ops) :=
  Render_previousCursor asciiEnv (testRender 24 20) (bufferAtEnd "select".toList) []
    (noCompletion 6) 0 0 (by decide) (by decide) (by decide) rfl
    (fun h => absurd h (by decide)) (fun h => absurd rfl h)

/-- C8: when a call of `Render` returns, a second call with the same arguments
on the renderer it left returns too, and leaves the same `previousCursor`. -/
theorem Render_idempotent {σ : Type} (env : Env) (r : Render σ) (buffer : Buffer)
    (previousText : GoString) (completion : CompletionManager) (r1 : Render σ)
    (ops1 : List Op)
    (h : Render.Render env r buffer previousText completion = some (r1, ops1)) :
    ∃ r2 ops2, Render.Render env r1 buffer previousText completion = some (r2, ops2) ∧
      r2.previousCursor = r1.previousCursor := by
  by_cases hcol : r.col = 0
  · simp only [Render.Render, hcol, if_true, Option.some.injEq, Prod.mk.injEq] at h
    obtain ⟨rfl, -⟩ := h
    exact ⟨r, [], by simp only [Render.Render, hcol, if_true], rfl⟩
  · obtain ⟨back, hb⟩ := moveForRender_some r r.previousCursor 0 previousText
    obtain ⟨x, y, hpos, -, -⟩ := toPos_some r.col
      (env.StringWidth (getCurrentPrefix r) + env.StringWidth (env.TrimSpace buffer.Text))
      (env.TrimSpace buffer.Text)
    by_cases hsmall : y + 1 + (completion.max : Int) > (r.row : Int)
        ∨ env.completionMargin > (r.col : Int)
    · have h' := h
      simp only [Render.Render, hcol, if_false, hb, Render.toPos, hpos, hsmall, if_true,
        Option.some.injEq, Prod.mk.injEq] at h'
      obtain ⟨rfl, -⟩ := h'
      exact ⟨r, ops1, h, rfl⟩
    · have h' := h
      simp only [Render.Render, hcol, if_false, hb, Render.toPos, hpos, hsmall] at h'
      cases hf : renderFrame env r buffer completion (env.TrimSpace buffer.Text)
          (env.StringWidth (getCurrentPrefix r) + env.StringWidth (env.TrimSpace buffer.Text))
        with
      | none => simp [hf] at h'
      | some fc =>
        obtain ⟨frame, cursor⟩ := fc
        simp only [hf, Option.some.injEq, Prod.mk.injEq] at h'
        obtain ⟨rfl, -⟩ := h'
        obtain ⟨back2, hb2⟩ := moveForRender_some { r with previousCursor := cursor } cursor 0
          previousText
        have hf2 := renderFrame_previousCursor env r cursor buffer completion
          (env.TrimSpace buffer.Text)
          (env.StringWidth (getCurrentPrefix r) + env.StringWidth (env.TrimSpace buffer.Text))
        rw [hf] at hf2
        have hpos2 : Prompt.toPos r.col (env.StringWidth
            (getCurrentPrefix { r with previousCursor := cursor })
              + env.StringWidth (env.TrimSpace buffer.Text))
            (env.TrimSpace buffer.Text) = some (x, y) := hpos
        have hf3 : renderFrame env { r with previousCursor := cursor } buffer completion
            (env.TrimSpace buffer.Text)
            (env.StringWidth (getCurrentPrefix { r with previousCursor := cursor })
              + env.StringWidth (env.TrimSpace buffer.Text)) = some (frame, cursor) := hf2
        refine ⟨{ r with previousCursor := cursor }, back2 ++ frame, ?_, rfl⟩
        simp only [Render.Render, hcol, if_false, hb2, Render.toPos, hpos2, hsmall, hf3]

/-- C8, at a concrete input: the first cycle for the prompt `"> "` and the
buffer text `"select"` on 20 columns leaves `previousCursor = 8`, and so does a
second cycle after it. -/
theorem Render_idempotent_witness :
    ∃ r2 ops2, Render.Render asciiEnv { testRender 24 20 with previousCursor := 8 }
        (bufferAtEnd "select".toList) [] (noCompletion 6) = some (r2, ops2) ∧
      r2.previousCursor = 8 :=
  Render_idempotent asciiEnv (testRender 24 20) (bufferAtEnd "select".toList) []
    (noCompletion 6) { testRender 24 20 with previousCursor := 8 }
    [.CursorUp 0, .CursorBackward 0, .HideCursor, .EraseLine, .EraseDown,
     .SetColor .Blue .DefaultColor false, .WriteStr "> ".toList,
     .SetColor .DefaultColor .DefaultColor false, .WriteStr "select".toList,
     .SetColor .DefaultColor .DefaultColor false, .CursorUp 0, .CursorBackward 0,
     .ShowCursor, .Flush]
    (by rfl)

/-- C7 fails on the code: on a terminal of 10 columns and 3 = 1 + max rows,
with the prompt `"> "` and the single line `"abcdefghijklmnopqrstuvwx"` (26
columns, which wrap onto 2 further rows, so that 2 + 1 + 2 exceeds 3), `Render`
finds row 0 for the end of the text, draws the normal frame (prefix and text
are written) and stores `previousCursor = 26`. -/
theorem Render_wrapped_line_draws_frame :
    toPos 10 (asciiWidth "> ".toList + asciiWidth "abcdefghijklmnopqrstuvwx".toList)
        "abcdefghijklmnopqrstuvwx".toList
      = some (0, 0) ∧
    (Render.Render asciiEnv (testRender 3 10) (bufferAtEnd "abcdefghijklmnopqrstuvwx".toList) []
        (noCompletion 2)).map (fun q => (q.1.previousCursor, q.2))
      = some (26,
          [.CursorUp 0, .CursorBackward 0, .HideCursor, .EraseLine, .EraseDown,
           .SetColor .Blue .DefaultColor false, .WriteStr "> ".toList,
           .SetColor .DefaultColor .DefaultColor false,
           .WriteStr "abcdefghijklmnopqrstuvwx".toList,
           .SetColor .DefaultColor .DefaultColor false, .CursorUp 0, .CursorBackward 0,
           .ShowCursor, .Flush]) := by
  constructor
  · decide
  · decide

/-- C9: `BreakLine` returns; with a callback registered it runs the callback
once, on the document of the buffer, and without one it runs nothing; both
times it sets `previousCursor` to 0.  So `n` calls in a row with a callback
registered run it `n` times (a counting callback adds `n`), and in
`TestBreakLineCallback` the counter is 0 after the call without callback and 3
after the three calls with it. -/
theorem BreakLine_callback {σ : Type} (env : Env) (buffer : Buffer) :
    (∀ (r : Render σ) (w : σ) (callback : Document → σ → σ),
      r.breakLineCallback = some callback →
      ∃ ops, BreakLine env r buffer w
        = some ({ r with previousCursor := 0 }, ops, callback buffer.Document w)) ∧
    (∀ (r : Render σ) (w : σ), r.breakLineCallback = none →
      ∃ ops, BreakLine env r buffer w = some ({ r with previousCursor := 0 }, ops, w)) ∧
    (∀ (n : Nat) (r : Render σ) (w : σ) (callback : Document → σ → σ),
      r.breakLineCallback = some callback →
      ∃ r', breakLines env buffer n r w = some (r', (callback buffer.Document)^[n] w)) ∧
    (∀ (n : Nat) (r : Render Nat) (i : Nat),
      r.breakLineCallback = some (fun _ i => i + 1) →
      ∃ r', breakLines env buffer n r i = some (r', i + n)) ∧
    (breakLines asciiEnv (bufferAtEnd []) 1 (testRender 0 1) 0).map Prod.snd = some 0 ∧
    (breakLines asciiEnv (bufferAtEnd []) 3
        { testRender 0 1 with breakLineCallback := some fun _ i => i + 1 } 0).map Prod.snd
      = some 3 := by
  refine ⟨?_, ?_, ?_, ?_, ?_, ?_⟩
  · intro r w callback h
    obtain ⟨ops, hb⟩ := BreakLine_eq env r buffer w
    rw [hb]
    refine ⟨ops, ?_⟩
    simp only [h]
  · intro r w h
    obtain ⟨ops, hb⟩ := BreakLine_eq env r buffer w
    rw [hb]
    refine ⟨ops, ?_⟩
    simp only [h]
  · intro n r w callback h
    obtain ⟨r', h1, -⟩ := breakLines_iterate env buffer callback n r w h
    exact ⟨r', h1⟩
  · intro n r i h
    obtain ⟨r', h1, -⟩ := breakLines_iterate env buffer (fun _ i => i + 1) n r i h
    refine ⟨r', ?_⟩
    rw [h1]
    have e : ∀ (m k : Nat), (fun i : Nat => i + 1)^[m] k = k + m := by
      intro m
      induction m with
      | zero => intro k; rfl
      | succ m ih => intro k; rw [Function.iterate_succ_apply, ih]; omega
    rw [e]
  · decide
  · decide

end Prompt
